import Mathlib

/-!
Shallow embedding of the testnet crypto-payments subsystem of the
e-commerce backend: `testnet_blockchain.py`, `testnet_wallet.py`,
`testnet_payment_processor.py` and `testnet_webhook_queue.py`.

Monetary amounts and timestamps (Python floats) are modelled as rationals.
Python uuid4 transaction and invoice ids are modelled as caller-supplied
natural numbers. SHA-256 (`Block.calculate_hash`) is modelled as an ideal
collision-free digest: an injective constructor over the hashed fields.
-/

namespace ECom

/-- Transaction record; fields as in `Transaction.__init__`. -/
structure Transaction where
  sender : String
  recipient : String
  amount : ℚ
  fee : ℚ
  amount_with_fee : ℚ
  timestamp : ℚ
  tx_id : Nat
deriving Repr, DecidableEq

/-- Model of `Transaction.__init__(sender, recipient, amount, tx_id, fee)`:
sets `amount_with_fee = amount + fee`. -/
def mkTransaction (sender recipient : String) (amount timestamp : ℚ)
    (tx_id : Nat) (fee : ℚ) : Transaction :=
  { sender := sender, recipient := recipient, amount := amount, fee := fee,
    amount_with_fee := amount + fee, timestamp := timestamp, tx_id := tx_id }

/-- Idealised stand-in for `Block.calculate_hash` (SHA-256 hexdigest of the
block fields): `zero` is the literal string "0" used as the genesis
`previous_hash`; `digest` is injective in the hashed fields, modelling
collision freedom. A real hexdigest is never the one-character string "0",
so the two constructors being distinct is faithful. -/
inductive Hash where
  | zero
  | digest (index : Nat) (timestamp : ℚ) (transactions : List Transaction)
      (previous_hash : Hash) (nonce : Nat)
deriving Repr, DecidableEq

/-- Block record; `hash` is set by `__init__` from the other fields. -/
structure Block where
  index : Nat
  timestamp : ℚ
  transactions : List Transaction
  previous_hash : Hash
  nonce : Nat
  hash : Hash
deriving Repr, DecidableEq

def calculate_hash (index : Nat) (timestamp : ℚ) (transactions : List Transaction)
    (previous_hash : Hash) (nonce : Nat) : Hash :=
  Hash.digest index timestamp transactions previous_hash nonce

/-- Model of `Block.__init__` with the default nonce 0. -/
def mkBlock (index : Nat) (timestamp : ℚ) (transactions : List Transaction)
    (previous_hash : Hash) : Block :=
  { index := index, timestamp := timestamp, transactions := transactions,
    previous_hash := previous_hash, nonce := 0,
    hash := calculate_hash index timestamp transactions previous_hash 0 }

/-- Python dict lookup, `d.get(k)`. -/
def dictGet {α β : Type} [DecidableEq α] (d : List (α × β)) (k : α) : Option β :=
  match d with
  | [] => none
  | (k1, v) :: rest => if k1 = k then some v else dictGet rest k

/-- Python dict lookup with default, `d.get(k, w)`. -/
def dictGetD {α β : Type} [DecidableEq α] (d : List (α × β)) (k : α) (w : β) : β :=
  (dictGet d k).getD w

/-- Python dict assignment `d[k] = v`: replace the binding if present,
append otherwise. -/
def dictSet {α β : Type} [DecidableEq α] (d : List (α × β)) (k : α) (v : β) :
    List (α × β) :=
  match d with
  | [] => [(k, v)]
  | (k1, w) :: rest => if k1 = k then (k, v) :: rest else (k1, w) :: dictSet rest k v

/-- Mutable state of `TestnetBlockchain`. -/
structure Chain where
  chain : List Block
  pending_transactions : List Transaction
  balances : List (String × ℚ)
  mempool : List Transaction
deriving Repr, DecidableEq

/-- Model of `create_genesis_block`: Block(0, time.time(), [], "0"). -/
def genesis_block (ts : ℚ) : Block := mkBlock 0 ts [] Hash.zero

/-- Model of `TestnetBlockchain.__init__`, with the construction time as parameter. -/
def initChain (ts : ℚ) : Chain :=
  { chain := [genesis_block ts], pending_transactions := [], balances := [],
    mempool := [] }

/-- Model of `calculate_fee`: `transaction_size_bytes * 0.00001`. -/
def calculate_fee (transaction_size_bytes : ℚ) : ℚ :=
  transaction_size_bytes * (1 / 100000)

/-- Model of `get_balance`: `balances.get(address, 0)`. -/
def get_balance (s : Chain) (address : String) : ℚ :=
  dictGetD s.balances address 0

/-- Model of `add_transaction`: reject non-positive amounts; for a non-"network" sender
reject when the confirmed balance is below amount plus fee (the fee is
computed from the amount, as in the source, where calculate_fee receives
`transaction.amount`); otherwise append to pending and mempool. -/
def add_transaction (s : Chain) (tx : Transaction) : Bool × Chain :=
  if tx.amount ≤ 0 then (false, s)
  else
    let fee := calculate_fee tx.amount
    if tx.sender ≠ "network" ∧ dictGetD s.balances tx.sender 0 < tx.amount + fee then
      (false, s)
    else
      (true, { s with pending_transactions := s.pending_transactions ++ [tx],
                      mempool := s.mempool ++ [tx] })

/-- The per-transaction fee fixup inside `mine_block`: for a non-"network"
sender, `tx.amount_with_fee = tx.amount + calculate_fee(tx.amount)`,
otherwise `tx.amount_with_fee = tx.amount`. -/
def mineFee (tx : Transaction) : Transaction :=
  if tx.sender ≠ "network" then
    { tx with amount_with_fee := tx.amount + calculate_fee tx.amount }
  else
    { tx with amount_with_fee := tx.amount }

/-- One step of `_update_balances`: deduct `amount_with_fee` from a
non-"network" sender, credit `amount` to the recipient. -/
def updateOne (b : List (String × ℚ)) (tx : Transaction) : List (String × ℚ) :=
  let b1 := if tx.sender ≠ "network" then
      dictSet b tx.sender (dictGetD b tx.sender 0 - tx.amount_with_fee)
    else b
  dictSet b1 tx.recipient (dictGetD b1 tx.recipient 0 + tx.amount)

/-- Model of `_update_balances` over a transaction list. -/
def update_balances (bal : List (String × ℚ)) (txs : List Transaction) :
    List (String × ℚ) :=
  txs.foldl updateOne bal

/-- Model of `mine_block`, with the mining time as parameter. Returns the new block
(`none` when there was nothing to mine, where Python returns None) and the
updated state. The mempool filter removes exactly the mined transactions;
in Python the mempool aliases the pending objects, so identity-based
removal coincides with value-based removal for uuid-unique transactions. -/
def mine_block (s : Chain) (ts : ℚ) : Option Block × Chain :=
  if s.pending_transactions = [] then (none, s)
  else
    let transactions_to_mine := s.pending_transactions.map mineFee
    let last_block_hash := ((s.chain.getLast?).map Block.hash).getD Hash.zero
    let new_block := mkBlock s.chain.length ts transactions_to_mine last_block_hash
    (some new_block,
     { s with chain := s.chain ++ [new_block],
              balances := update_balances s.balances new_block.transactions,
              pending_transactions := [],
              mempool := s.mempool.filter
                (fun tx => ¬ tx ∈ s.pending_transactions) })

/-- Model of `get_transactions_for_address`: all confirmed transactions touching the
address, in chain order. -/
def get_transactions_for_address (s : Chain) (address : String) :
    List Transaction :=
  s.chain.foldl
    (fun acc b =>
      acc ++ b.transactions.filter
        (fun tx => tx.sender = address ∨ tx.recipient = address)) []

/-- Result of `generate_payment_proof`: either the proof dict fields that
the claims mention, or the error object. -/
inductive ProofResult where
  | found (tx_id : Nat) (block_hash : Hash) (block_index : Nat)
      (confirmation_time : ℚ)
  | notFound
deriving Repr, DecidableEq

/-- The inner loop of `generate_payment_proof` over a single block. -/
def blockProof (b : Block) (tx_id : Nat) : Option ProofResult :=
  (b.transactions.find? (fun tx => tx.tx_id = tx_id)).map
    (fun tx => ProofResult.found tx.tx_id b.hash b.index b.timestamp)

/-- Model of `generate_payment_proof`: first matching transaction in chain order,
else the error object. -/
def generate_payment_proof (s : Chain) (tx_id : Nat) : ProofResult :=
  ((s.chain.findSome? (fun b => blockProof b tx_id)).getD ProofResult.notFound)

/-- Invoice record (`TestnetInvoice`). The three statuses of the source. -/
inductive InvoiceStatus where
  | pending
  | paid
  | expired
deriving Repr, DecidableEq

structure Invoice where
  invoice_id : Nat
  amount : ℚ
  currency : String
  payment_address : String
  status : InvoiceStatus
  paid_amount : ℚ
  created_at : ℚ
  expires_at : ℚ
deriving Repr, DecidableEq

/-- Model of `TestnetInvoice.__init__`: status "pending", paid_amount 0, expiry one
hour (3600 seconds) after creation. -/
def mkInvoice (invoice_id : Nat) (amount : ℚ) (currency payment_address : String)
    (created_at : ℚ) : Invoice :=
  { invoice_id := invoice_id, amount := amount, currency := currency,
    payment_address := payment_address, status := InvoiceStatus.pending,
    paid_amount := 0, created_at := created_at,
    expires_at := created_at + 3600 }

/-- A queued webhook task, as built by `WebhookQueue.add_webhook`. -/
structure WebhookTask where
  url : String
  payload : Invoice
  current_retries : Nat
  next_attempt_time : ℚ
deriving Repr, DecidableEq

/-- Combined state of `TestnetWallet` and `TestnetPaymentProcessor`; both
share the one `TestnetBlockchain`, here the `bc` field. The wallet runs in
its simulated-address mode (no bip32 xpub supplied), the processor webhook
queue is the list of enqueued tasks. -/
structure PState where
  bc : Chain
  xpub : String
  address_counter : Nat
  addresses : List String
  invoices : List (Nat × Invoice)
  webhooks : List WebhookTask
deriving Repr, DecidableEq

/-- Fresh wallet and processor over a fresh blockchain. -/
def initPState (ts : ℚ) : PState :=
  { bc := initChain ts, xpub := "xpub_simulated_master_key",
    address_counter := 0, addresses := [], invoices := [], webhooks := [] }

/-- Model of `TestnetWallet.generate_address` in the simulated branch:
the deterministic xpub-and-counter string, counter bumped, address recorded. -/
def generate_address (s : PState) : String × PState :=
  let derived_address := s.xpub ++ "_" ++ toString s.address_counter
  (derived_address,
   { s with address_counter := s.address_counter + 1,
            addresses := if derived_address ∈ s.addresses then s.addresses
                         else s.addresses ++ [derived_address] })

/-- Model of `TestnetWallet.send_funds`: reject unmanaged senders; estimate the fee
from a fixed 250-byte transaction size; reject when the confirmed balance is
below amount plus that fee; else build the transaction (uuid modelled by the
`tx_id` argument, creation time by `ts`), store the estimated fee on it, and
hand it to `add_transaction`. Note the fee assignment happens after
`__init__`, so `amount_with_fee` on the built transaction is still `amount`. -/
def send_funds (s : PState) (sender_address recipient_address : String)
    (amount ts : ℚ) (tx_id : Nat) : Bool × PState :=
  if sender_address ∈ s.addresses then
    let fee := calculate_fee 250
    let total_amount := amount + fee
    if get_balance s.bc sender_address < total_amount then (false, s)
    else
      let tx := { mkTransaction sender_address recipient_address amount ts tx_id 0
                  with fee := fee }
      let res := add_transaction s.bc tx
      (res.1, { s with bc := res.2 })
  else (false, s)

/-- Model of `TestnetWallet.faucet`: record the address, admit a "network"
transaction for the amount and, when admitted, immediately mine a block. -/
def faucet (s : PState) (address : String) (amount tx_ts mine_ts : ℚ)
    (tx_id : Nat) : Bool × PState :=
  let s1 := { s with addresses := if address ∈ s.addresses then s.addresses
                                  else s.addresses ++ [address] }
  let faucet_transaction := mkTransaction "network" address amount tx_ts tx_id 0
  match add_transaction s1.bc faucet_transaction with
  | (true, bc1) =>
      let bc2 := (mine_block bc1 mine_ts).2
      (true, { s1 with bc := bc2 })
  | (false, bc1) => (false, { s1 with bc := bc1 })

/-- Model of `TestnetPaymentProcessor.create_invoice`: generate a payment address,
build the invoice (uuid modelled by `invoice_id`, creation time by `now`)
and record it. -/
def create_invoice (s : PState) (amount : ℚ) (currency : String)
    (invoice_id : Nat) (now : ℚ) : Invoice × PState :=
  let (payment_address, s1) := generate_address s
  let inv := mkInvoice invoice_id amount currency payment_address now
  (inv, { s1 with invoices := dictSet s1.invoices invoice_id inv })

/-- Model of `WebhookQueue.add_webhook` with `current_retries = 0`:
`next_attempt_time` is the enqueue time. -/
def add_webhook (s : PState) (url : String) (payload : Invoice) (now : ℚ) :
    PState :=
  { s with webhooks := s.webhooks ++
      [{ url := url, payload := payload, current_retries := 0,
         next_attempt_time := now }] }

/-- Result of `monitor_payments` and `get_invoice_status`. -/
inductive MonitorResult where
  | errNotFound
  | ok (inv : Invoice)
deriving Repr, DecidableEq

/-- The reconciliation sum of `monitor_payments`: total `amount` over
confirmed transactions whose recipient is the payment address. -/
def received_amount (bc : Chain) (payment_address : String) : ℚ :=
  ((get_transactions_for_address bc payment_address).filter
      (fun tx => tx.recipient = payment_address)).foldl
    (fun acc tx => acc + tx.amount) 0

/-- Model of `TestnetPaymentProcessor.monitor_payments`, with `time.time()` as the
`now` parameter: early return on paid or expired; expiry check before
reconciliation; raise `paid_amount` to the reconciled sum when larger;
transition to paid (and enqueue one webhook) when
`paid_amount >= amount`. -/
def monitor_payments (s : PState) (invoice_id : Nat) (now : ℚ) :
    MonitorResult × PState :=
  match dictGet s.invoices invoice_id with
  | none => (MonitorResult.errNotFound, s)
  | some invoice =>
    if invoice.status = InvoiceStatus.paid ∨
       invoice.status = InvoiceStatus.expired then
      (MonitorResult.ok invoice, s)
    else if invoice.expires_at < now then
      let inv1 := { invoice with status := InvoiceStatus.expired }
      (MonitorResult.ok inv1,
       { s with invoices := dictSet s.invoices invoice_id inv1 })
    else
      let current_paid_amount := received_amount s.bc invoice.payment_address
      let inv1 := if invoice.paid_amount < current_paid_amount then
          { invoice with paid_amount := current_paid_amount }
        else invoice
      if inv1.amount ≤ inv1.paid_amount then
        let inv2 := { inv1 with status := InvoiceStatus.paid }
        let s1 := { s with invoices := dictSet s.invoices invoice_id inv2 }
        (MonitorResult.ok inv2,
         add_webhook s1 "http://your-ecommerce-backend.com/webhook" inv2 now)
      else
        (MonitorResult.ok inv1,
         { s with invoices := dictSet s.invoices invoice_id inv1 })

/-- Model of `get_invoice_status` always monitors before returning. -/
def get_invoice_status (s : PState) (invoice_id : Nat) (now : ℚ) :
    MonitorResult × PState :=
  monitor_payments s invoice_id now

/-- Result of `create_refund`: the structured error dicts and the success
dict of the source. -/
inductive RefundResult where
  | errInvoiceNotFound
  | errNotPaid
  | errInvalidAmount
  | success (invoice_id : Nat) (refund_address : String) (amount : ℚ)
  | errSendFailed
deriving Repr, DecidableEq

/-- Model of `TestnetPaymentProcessor.create_refund`: validate, then generate a
temporary merchant address, faucet `amount * 2` to it (which mines a block)
and send the refund. The times of the two created transactions and of the
faucet mine are all `time.time()` calls, modelled by `ts`; the two uuids by
`ftx_id` and `stx_id`. -/
def create_refund (s : PState) (invoice_id : Nat) (refund_address : String)
    (amount ts : ℚ) (ftx_id stx_id : Nat) : RefundResult × PState :=
  match dictGet s.invoices invoice_id with
  | none => (RefundResult.errInvoiceNotFound, s)
  | some invoice =>
    if invoice.status ≠ InvoiceStatus.paid then (RefundResult.errNotPaid, s)
    else if amount ≤ 0 ∨ invoice.paid_amount < amount then
      (RefundResult.errInvalidAmount, s)
    else
      let (merchant_address, s1) := generate_address s
      let (_, s2) := faucet s1 merchant_address (amount * 2) ts ts ftx_id
      match send_funds s2 merchant_address refund_address amount ts stx_id with
      | (true, s3) => (RefundResult.success invoice_id refund_address amount, s3)
      | (false, s3) => (RefundResult.errSendFailed, s3)

/-- Model of `check_for_expired_invoices`: expire every pending invoice past its
expiry. -/
def check_for_expired_invoices (s : PState) (now : ℚ) : PState :=
  let step := fun (p : Nat × Invoice) =>
    if p.2.status = InvoiceStatus.pending ∧ p.2.expires_at < now
    then (p.1, { p.2 with status := InvoiceStatus.expired })
    else p
  { s with invoices := s.invoices.map step }

/-- Attempt count of `WebhookQueue._process_webhooks` on one task whose
transport fails on every attempt, starting from retry counter `r`: one
attempt is made, then the task is re-queued with `r + 1` exactly when
`r < retry_delays.length`, else dropped. -/
def attemptsAlwaysFail (retry_delays : List Nat) (r : Nat) : Nat :=
  if h : r < retry_delays.length then
    1 + attemptsAlwaysFail retry_delays (r + 1)
  else 1
termination_by retry_delays.length - r

/-- Adjacency of consecutive blocks: the later block points at the hash of
the earlier one. -/
def ChainLink (b1 b2 : Block) : Prop := b2.previous_hash = b1.hash

/-- Ledger states reachable from a fresh `TestnetBlockchain` by any sequence
of `add_transaction` and `mine_block` calls. -/
inductive BReach : Chain → Prop where
  | init (ts : ℚ) : BReach (initChain ts)
  | add {s : Chain} (tx : Transaction) : BReach s → BReach (add_transaction s tx).2
  | mine {s : Chain} (ts : ℚ) : BReach s → BReach (mine_block s ts).2

/-- Reachability restricted to call sequences in which a non-"network"
transaction is only admitted while its sender has no other pending
transaction. This is the discipline under which the admission check of
`add_transaction` is strong enough to keep balances non-negative. -/
inductive ReachSinglePending : Chain → Prop where
  | init (ts : ℚ) : ReachSinglePending (initChain ts)
  | add {s : Chain} (tx : Transaction) : ReachSinglePending s →
      (tx.sender = "network" ∨ ∀ p ∈ s.pending_transactions, p.sender ≠ tx.sender) →
      ReachSinglePending (add_transaction s tx).2
  | mine {s : Chain} (ts : ℚ) : ReachSinglePending s →
      ReachSinglePending (mine_block s ts).2

/-- Total amount-plus-fee that the pending transactions will deduct from
address `a` when mined (the mining-time fee recomputation applied). -/
def pendingDebit (txs : List Transaction) (a : String) : ℚ :=
  (txs.map (fun tx => if tx.sender = a ∧ tx.sender ≠ "network"
      then tx.amount + calculate_fee tx.amount else 0)).sum

/-- Number of confirmed transactions on the chain carrying a given id. -/
def txIdOccurrences (s : Chain) (tid : Nat) : Nat :=
  (s.chain.map
    (fun b => (b.transactions.filter (fun t => t.tx_id = tid)).length)).sum

/-! Concrete scenario states used by counterexamples and witnesses. -/

/-- Faucet-style transaction: 10 coins from "network" to walletA. -/
def txFaucetA : Transaction := mkTransaction "network" "walletA" 10 0 0 0

/-- First 9-coin spend from walletA. -/
def txSpend1 : Transaction := mkTransaction "walletA" "walletB" 9 0 1 0

/-- Second 9-coin spend from walletA, racing the first at admission. -/
def txSpend2 : Transaction := mkTransaction "walletA" "walletB" 9 0 2 0

def c1s1 : Chain := (add_transaction (initChain 0) txFaucetA).2
def c1s2 : Chain := (mine_block c1s1 1).2
def c1s3 : Chain := (add_transaction c1s2 txSpend1).2
def c1s4 : Chain := (add_transaction c1s3 txSpend2).2
def c1s5 : Chain := (mine_block c1s4 2).2

/-- Single-spend variant: mine right after the first spend. -/
def c1w : Chain := (mine_block c1s3 2).2

/-- The block mined in `c1s2`: block 1 holding the faucet transaction. -/
def minedBlock1 : Block := mkBlock 1 1 [mineFee txFaucetA] (genesis_block 0).hash

/-- A paid invoice over 10 units, as scenario E of the spec assumes. -/
def c2inv : Invoice :=
  { invoice_id := 0, amount := 10, currency := "TBTC",
    payment_address := "payaddr", status := InvoiceStatus.paid,
    paid_amount := 10, created_at := 0, expires_at := 3600 }

def c2s0 : PState := { initPState 0 with invoices := [(0, c2inv)] }
def c2r1 : RefundResult × PState := create_refund c2s0 0 "addrX" 5 0 10 11
def c2r2 : RefundResult × PState := create_refund c2r1.2 0 "addrX" 6 0 12 13

/-- A paid invoice keyed 7, for the idempotence witness. -/
def c4inv : Invoice :=
  { invoice_id := 7, amount := 10, currency := "TBTC",
    payment_address := "payaddr", status := InvoiceStatus.paid,
    paid_amount := 10, created_at := 0, expires_at := 3600 }

def c4s : PState := { initPState 0 with invoices := [(7, c4inv)] }

/-- Wallet state with one address holding 5 coins, via the faucet. -/
def c7s : PState := (faucet (initPState 0) "addr1" 5 0 1 0).2

/-- Invoice for amount 0, created through `create_invoice`. -/
def c8s : PState := (create_invoice (initPState 0) 0 "TBTC" 42 0).2
def c8inv : Invoice := mkInvoice 42 0 "TBTC" "xpub_simulated_master_key_0" 0

/-- A pending transaction whose stored fee is the 250-byte estimate of
`send_funds` while its amount is 7. -/
def c9tx : Transaction :=
  { mkTransaction "walletA" "walletB" 7 0 3 0 with fee := calculate_fee 250 }

def c9s : Chain :=
  { initChain 0 with balances := [("walletA", 50)],
                     pending_transactions := [c9tx] }

/-- Chain holding one confirmed 10-coin payment to "payaddr10". -/
def c10tx : Transaction := mkTransaction "network" "payaddr10" 10 0 0 0
def c10bc : Chain := (mine_block (add_transaction (initChain 0) c10tx).2 1).2

/-- Invoice over 10 at "payaddr10", created at 0, so expiring at 3600. -/
def c10inv : Invoice := mkInvoice 5 10 "TBTC" "payaddr10" 0

def c10s : PState :=
  { bc := c10bc, xpub := "xpub_simulated_master_key", address_counter := 0,
    addresses := [], invoices := [(5, c10inv)], webhooks := [] }

/-! Lemmas about the dictionary model. -/

theorem dictGet_dictSet_self {α β : Type} [DecidableEq α]
    (d : List (α × β)) (k : α) (v : β) : dictGet (dictSet d k v) k = some v := by
  induction d with
  | nil => simp [dictSet, dictGet]
  | cons p rest ih =>
    obtain ⟨k1, w⟩ := p
    by_cases h : k1 = k
    · simp [dictSet, dictGet, h]
    · simp [dictSet, dictGet, h, ih]

theorem dictGet_dictSet_ne {α β : Type} [DecidableEq α]
    (d : List (α × β)) (k a : α) (v : β) (h : a ≠ k) :
    dictGet (dictSet d k v) a = dictGet d a := by
  induction d with
  | nil => simp [dictSet, dictGet, Ne.symm h]
  | cons p rest ih =>
    obtain ⟨k1, w⟩ := p
    by_cases hk : k1 = k
    · subst hk
      simp [dictSet, dictGet, Ne.symm h]
    · simp [dictSet, dictGet, hk, ih]

theorem dictGetD_dictSet_self {α β : Type} [DecidableEq α]
    (d : List (α × β)) (k : α) (v w : β) : dictGetD (dictSet d k v) k w = v := by
  simp [dictGetD, dictGet_dictSet_self]

theorem dictGetD_dictSet_ne {α β : Type} [DecidableEq α]
    (d : List (α × β)) (k a : α) (v w : β) (h : a ≠ k) :
    dictGetD (dictSet d k v) a w = dictGetD d a w := by
  simp [dictGetD, dictGet_dictSet_ne d k a v h]

/-! Claim C7: insufficient-funds `send_funds` returns false and leaves the
whole state untouched. -/

/-- C7. When `send_funds` is called with a managed sender whose balance is
below amount plus the 250-byte fee estimate, it returns false and the state
(the ledger in particular) is exactly as before: no deduction, no pending
or mempool entry. -/
theorem send_funds_insufficient_noop (s : PState)
    (sender recipient : String) (amount ts : ℚ) (tx_id : Nat)
    (hmem : sender ∈ s.addresses)
    (hbal : get_balance s.bc sender < amount + calculate_fee 250) :
    send_funds s sender recipient amount ts tx_id = (false, s) := by
  simp [send_funds, hmem, hbal]

/-- C7 witness: an address holding 5 coins cannot send 100; the call
returns false and the state is unchanged. -/
theorem send_funds_insufficient_noop_witness :
    send_funds c7s "addr1" "addr2" 100 0 9 = (false, c7s) := by
  apply send_funds_insufficient_noop
  · norm_num +decide [c7s, faucet, initPState, initChain, genesis_block, mkBlock,
      mkTransaction, add_transaction, mine_block, calculate_fee, mineFee,
      update_balances, updateOne, dictGet, dictGetD, dictSet, calculate_hash]
  · norm_num +decide [c7s, faucet, initPState, initChain, genesis_block, mkBlock,
      mkTransaction, add_transaction, mine_block, calculate_fee, mineFee,
      update_balances, updateOne, dictGet, dictGetD, dictSet, calculate_hash,
      get_balance]

/-! Claim C2: cumulative refund cap. The code validates each refund call
against the undecremented `paid_amount`, so the second refund of 6 after a
refund of 5 (cumulative 11 over a paid_amount of 10) succeeds instead of
returning an error. -/

/-- C2 counterexample: on a paid invoice with paid_amount = 10,
`create_refund(id, "addrX", 5)` succeeds, and the subsequent
`create_refund(id, "addrX", 6)` ALSO succeeds (the claim says it returns a
structured error), because `paid_amount` is never decremented. -/
theorem create_refund_cumulative_cex :
    c2r1.1 = RefundResult.success 0 "addrX" 5 ∧
    c2r2.1 = RefundResult.success 0 "addrX" 6 := by
  constructor <;>
    norm_num +decide [c2r1, c2r2, c2s0, c2inv, create_refund, generate_address,
      faucet, send_funds, add_transaction, mine_block, initPState, initChain,
      genesis_block, mkBlock, mkTransaction, calculate_fee, mineFee,
      update_balances, updateOne, dictGet, dictGetD, dictSet, calculate_hash,
      get_balance]

/-- C2 amended: refund validation is per call against the undecremented
`paid_amount`. A single call whose amount exceeds `paid_amount` returns the
structured invalid-amount error and moves no funds: the entire state, the
ledger included, is returned unchanged. -/
theorem create_refund_invalid_amount_noop (s : PState) (invoice_id : Nat)
    (refund_address : String) (amount ts : ℚ) (ftx_id stx_id : Nat)
    (inv : Invoice) (h : dictGet s.invoices invoice_id = some inv)
    (hpaid : inv.status = InvoiceStatus.paid)
    (hgt : inv.paid_amount < amount) :
    create_refund s invoice_id refund_address amount ts ftx_id stx_id =
      (RefundResult.errInvalidAmount, s) := by
  simp [create_refund, h, hpaid, hgt]

/-- C2 amended witness: after the two successful refunds of 5 and 6, a
refund of 11 (exceeding paid_amount = 10 in one call) is rejected with the
structured error and the state is unchanged. -/
theorem create_refund_invalid_amount_noop_witness :
    create_refund c2r2.2 0 "addrX" 11 0 14 15 =
      (RefundResult.errInvalidAmount, c2r2.2) := by
  apply create_refund_invalid_amount_noop c2r2.2 0 "addrX" 11 0 14 15 c2inv
  · norm_num +decide [c2r2, c2r1, c2s0, c2inv, create_refund, generate_address,
      faucet, send_funds, add_transaction, mine_block, initPState, initChain,
      genesis_block, mkBlock, mkTransaction, calculate_fee, mineFee,
      update_balances, updateOne, dictGet, dictGetD, dictSet, calculate_hash,
      get_balance]
  · norm_num +decide [c2inv]
  · norm_num +decide [c2inv]

/-! Claim C4: settlement is idempotent, and exactly one webhook is enqueued
at the pending-to-paid transition. -/

/-- C4. For an invoice already in status "paid", `monitor_payments` (hence
`get_invoice_status`) returns the whole state unchanged: `paid_amount` and
`status` stay as they are and no webhook is enqueued. At the
pending-to-paid transition itself (invoice pending, not expired, and the
reconciled paid amount reaching the requested amount), exactly one webhook
task is appended to the queue and the stored invoice becomes "paid". -/
theorem monitor_payments_idempotent_after_paid (s : PState)
    (invoice_id : Nat) (now : ℚ) (inv : Invoice)
    (h : dictGet s.invoices invoice_id = some inv) :
    (inv.status = InvoiceStatus.paid →
      monitor_payments s invoice_id now = (MonitorResult.ok inv, s)) ∧
    (inv.status = InvoiceStatus.pending → ¬ inv.expires_at < now →
      inv.amount ≤ max inv.paid_amount (received_amount s.bc inv.payment_address) →
      monitor_payments s invoice_id now =
        (MonitorResult.ok
          { inv with
              paid_amount := max inv.paid_amount
                (received_amount s.bc inv.payment_address),
              status := InvoiceStatus.paid },
         { s with
             invoices := dictSet s.invoices invoice_id
               { inv with
                   paid_amount := max inv.paid_amount
                     (received_amount s.bc inv.payment_address),
                   status := InvoiceStatus.paid },
             webhooks := s.webhooks ++
               [{ url := "http://your-ecommerce-backend.com/webhook",
                  payload :=
                    { inv with
                        paid_amount := max inv.paid_amount
                          (received_amount s.bc inv.payment_address),
                        status := InvoiceStatus.paid },
                  current_retries := 0, next_attempt_time := now }] })) := by
  constructor
  · intro hp
    simp [monitor_payments, h, hp]
  · intro hp hexp hle
    rcases lt_or_ge inv.paid_amount (received_amount s.bc inv.payment_address)
      with hc | hc
    · have hmax : max inv.paid_amount (received_amount s.bc inv.payment_address)
          = received_amount s.bc inv.payment_address := max_eq_right (le_of_lt hc)
      rw [hmax] at hle ⊢
      simp [monitor_payments, h, hp, hexp, hc, hle, add_webhook]
    · have hmax : max inv.paid_amount (received_amount s.bc inv.payment_address)
          = inv.paid_amount := max_eq_left hc
      rw [hmax] at hle ⊢
      have hnc : ¬ inv.paid_amount < received_amount s.bc inv.payment_address :=
        not_lt.mpr hc
      simp [monitor_payments, h, hp, hexp, hnc, hle, add_webhook]

/-- C4 witness: on a concrete paid invoice, a further status poll returns
the state bit-for-bit unchanged. -/
theorem monitor_payments_idempotent_after_paid_witness :
    monitor_payments c4s 7 100 = (MonitorResult.ok c4inv, c4s) :=
  (monitor_payments_idempotent_after_paid c4s 7 100 c4inv
      (by norm_num +decide [c4s, c4inv, initPState, initChain, genesis_block,
            mkBlock, dictGet, calculate_hash])).1
    (by norm_num +decide [c4inv])

/-! Claim C8: `create_invoice` does not validate its amount, and a
zero-amount invoice is marked paid, with a webhook, on its first status
poll even though nothing was ever paid to its address. -/

/-- C8. `create_invoice` accepts any amount (the created invoice stores the
amount unchanged and starts pending); and for a stored pending invoice
with amount at most 0, paid_amount 0, no confirmed payment to its address
and not yet expired, the first `monitor_payments` call flips it to "paid"
and enqueues a webhook. -/
theorem create_invoice_no_validation_zero_paid (s : PState)
    (invoice_id : Nat) (now : ℚ) (inv : Invoice)
    (h : dictGet s.invoices invoice_id = some inv)
    (hst : inv.status = InvoiceStatus.pending)
    (hamt : inv.amount ≤ 0) (hpaid : inv.paid_amount = 0)
    (hrecv : received_amount s.bc inv.payment_address = 0)
    (hexp : ¬ inv.expires_at < now) :
    (∀ (s0 : PState) (amt : ℚ) (cur : String) (iid : Nat) (t : ℚ),
        (create_invoice s0 amt cur iid t).1.amount = amt ∧
        (create_invoice s0 amt cur iid t).1.status = InvoiceStatus.pending) ∧
    monitor_payments s invoice_id now =
      (MonitorResult.ok { inv with status := InvoiceStatus.paid },
       { s with
           invoices := dictSet s.invoices invoice_id
             { inv with status := InvoiceStatus.paid },
           webhooks := s.webhooks ++
             [{ url := "http://your-ecommerce-backend.com/webhook",
                payload := { inv with status := InvoiceStatus.paid },
                current_retries := 0, next_attempt_time := now }] }) := by
  constructor
  · intro s0 amt cur iid t
    constructor <;> simp [create_invoice, generate_address, mkInvoice]
  · have hle : inv.amount ≤ inv.paid_amount := hpaid ▸ hamt
    have hnc : ¬ inv.paid_amount < received_amount s.bc inv.payment_address := by
      rw [hpaid, hrecv]
      exact lt_irrefl 0
    simp [monitor_payments, h, hst, hexp, hnc, hle, add_webhook]

/-- C8 witness: the invoice created with amount 0 over a fresh system is
paid, and a webhook is queued, on the first poll at time 10, although its
address never received anything. -/
theorem create_invoice_no_validation_zero_paid_witness :
    monitor_payments c8s 42 10 =
      (MonitorResult.ok { c8inv with status := InvoiceStatus.paid },
       { c8s with
           invoices := dictSet c8s.invoices 42
             { c8inv with status := InvoiceStatus.paid },
           webhooks := c8s.webhooks ++
             [{ url := "http://your-ecommerce-backend.com/webhook",
                payload := { c8inv with status := InvoiceStatus.paid },
                current_retries := 0, next_attempt_time := 10 }] }) :=
  (create_invoice_no_validation_zero_paid c8s 42 10 c8inv
      (by norm_num +decide [c8s, c8inv, create_invoice, generate_address,
            initPState, initChain, genesis_block, mkBlock, mkInvoice, dictGet,
            dictSet, calculate_hash])
      (by norm_num +decide [c8inv, mkInvoice])
      (by norm_num +decide [c8inv, mkInvoice])
      (by norm_num +decide [c8inv, mkInvoice])
      (by norm_num +decide [c8s, c8inv, create_invoice, generate_address,
            initPState, initChain, genesis_block, mkBlock, mkInvoice,
            received_amount, get_transactions_for_address, calculate_hash])
      (by norm_num +decide [c8inv, mkInvoice])).2

/-! Claim C10: the expiry check runs before payment reconciliation, so a
late first poll expires an invoice even when its address has already been
fully paid, and an expired invoice can never become paid. -/

/-- C10. For a stored pending invoice polled strictly after `expires_at`,
`monitor_payments` marks it "expired" even when the confirmed payments to
its address already reach the requested amount; and once expired, every
further poll at any time returns the state unchanged, so the invoice never
becomes "paid". -/
theorem monitor_payments_expiry_precedes_reconciliation (s : PState)
    (invoice_id : Nat) (now : ℚ) (inv : Invoice)
    (h : dictGet s.invoices invoice_id = some inv) :
    (inv.status = InvoiceStatus.pending → inv.expires_at < now →
      inv.amount ≤ received_amount s.bc inv.payment_address →
      monitor_payments s invoice_id now =
        (MonitorResult.ok { inv with status := InvoiceStatus.expired },
         { s with
             invoices := dictSet s.invoices invoice_id
               { inv with status := InvoiceStatus.expired } })) ∧
    (inv.status = InvoiceStatus.expired → ∀ t : ℚ,
      monitor_payments s invoice_id t = (MonitorResult.ok inv, s)) := by
  constructor
  · intro hp hlate _
    simp [monitor_payments, h, hp, hlate]
  · intro hp t
    simp [monitor_payments, h, hp]

/-- C10 witness: an invoice over 10 whose address already holds a confirmed
10-coin payment is polled first at time 4000, after its expiry 3600: it
expires; a further poll at time 5000 then leaves the expired state
untouched. -/
theorem monitor_payments_expiry_precedes_reconciliation_witness :
    monitor_payments c10s 5 4000 =
      (MonitorResult.ok { c10inv with status := InvoiceStatus.expired },
       { c10s with
           invoices := dictSet c10s.invoices 5
             { c10inv with status := InvoiceStatus.expired } }) :=
  (monitor_payments_expiry_precedes_reconciliation c10s 5 4000 c10inv
      (by norm_num +decide [c10s, c10inv, mkInvoice, dictGet])).1
    (by norm_num +decide [c10inv, mkInvoice])
    (by norm_num +decide [c10inv, mkInvoice])
    (by norm_num +decide [c10s, c10inv, c10bc, c10tx, mkInvoice, mkTransaction,
          received_amount, get_transactions_for_address, add_transaction,
          mine_block, initChain, genesis_block, mkBlock, calculate_fee, mineFee,
          update_balances, updateOne, dictGet, dictGetD, dictSet,
          calculate_hash])

/-- A transaction accepted by `add_transaction` is appended to the pending
list. -/
theorem add_transaction_true_pending (s : Chain) (tx : Transaction)
    (h : (add_transaction s tx).1 = true) :
    (add_transaction s tx).2.pending_transactions =
      s.pending_transactions ++ [tx] := by
  by_cases h1 : tx.amount ≤ 0
  · simp [add_transaction, h1] at h
  · by_cases h2 : tx.sender ≠ "network" ∧
        dictGetD s.balances tx.sender 0 < tx.amount + calculate_fee tx.amount
    · simp [add_transaction, h1, h2] at h
    · simp [add_transaction, h1, h2]

/-! Claim C9: the fee actually charged at mining is recomputed from the
transfer amount and ignores the fee stored on the transaction by
`send_funds` (which estimated it from a fixed 250-byte size). -/

/-- C9. Mining a pending non-"network" transaction deducts
`amount + amount * 0.00001` from the sender, whatever the `fee` field on
the transaction says; `send_funds` stores `calculate_fee 250` as the fee of
the transaction it admits; and the stored estimate agrees with the charged
fee exactly when the amount is 250. -/
theorem mine_block_fee_recomputed (s : Chain) (tx : Transaction) (ts : ℚ)
    (hp : s.pending_transactions = [tx]) (hs : tx.sender ≠ "network")
    (hr : tx.recipient ≠ tx.sender) :
    get_balance (mine_block s ts).2 tx.sender =
      get_balance s tx.sender - (tx.amount + tx.amount * (1 / 100000)) ∧
    (∀ q : ℚ, calculate_fee q = calculate_fee 250 ↔ q = 250) ∧
    (∀ (ps : PState) (sender recipient : String) (amount t : ℚ) (tid : Nat),
      (send_funds ps sender recipient amount t tid).1 = true →
      (send_funds ps sender recipient amount t tid).2.bc.pending_transactions =
        ps.bc.pending_transactions ++
          [{ mkTransaction sender recipient amount t tid 0 with
               fee := calculate_fee 250 }]) := by
  refine ⟨?_, ?_, ?_⟩
  · have hb : (mine_block s ts).2.balances = updateOne s.balances (mineFee tx) := by
      simp [mine_block, hp, update_balances, mkBlock]
    rw [get_balance, get_balance, hb, updateOne]
    simp only [mineFee, if_pos hs]
    rw [dictGetD_dictSet_ne _ _ _ _ _ (Ne.symm hr), dictGetD_dictSet_self]
    simp [calculate_fee]
  · intro q
    constructor
    · intro hq
      unfold calculate_fee at hq
      exact mul_right_cancel₀ (by norm_num) hq
    · intro hq
      rw [hq]
  · intro ps sender recipient amount t tid hok
    by_cases h1 : sender ∈ ps.addresses
    · by_cases h2 : get_balance ps.bc sender < amount + calculate_fee 250
      · simp [send_funds, h1, h2] at hok
      · have hpend := add_transaction_true_pending ps.bc
          { mkTransaction sender recipient amount t tid 0 with
              fee := calculate_fee 250 }
        simp [send_funds, h1, h2] at hok ⊢
        exact hpend hok
    · simp [send_funds, h1] at hok

/-- C9 witness: a pending 7-coin transaction carrying the stored 250-byte
fee estimate 0.0025 is mined from a 50-coin balance; the sender is charged
7 + 0.00007, not 7 + 0.0025. -/
theorem mine_block_fee_recomputed_witness :
    get_balance (mine_block c9s 1).2 "walletA" = 50 - (7 + 7 * (1 / 100000)) := by
  have h := (mine_block_fee_recomputed c9s c9tx 1 rfl
      (by norm_num +decide [c9tx, mkTransaction])
      (by norm_num +decide [c9tx, mkTransaction])).1
  have hsend : c9tx.sender = "walletA" := rfl
  have hamt : c9tx.amount = 7 := rfl
  rw [hsend, hamt] at h
  rw [h]
  norm_num +decide [c9s, get_balance, initChain, dictGetD, dictGet]

/-! Claim C3: webhook retry exhaustion. With the default schedule
[5, 10, 30] the task is attempted once and retried three times: four
delivery attempts in total, not three. -/

/-- C3 counterexample: under the default retry delays an always-failing
webhook is not attempted exactly 3 times. -/
theorem webhook_attempts_cex : attemptsAlwaysFail [5, 10, 30] 0 ≠ 3 := by
  rw [attemptsAlwaysFail.eq_def]
  norm_num
  rw [attemptsAlwaysFail.eq_def]
  norm_num
  rw [attemptsAlwaysFail.eq_def]
  norm_num
  rw [attemptsAlwaysFail.eq_def]
  norm_num

/-- C3 amended: with the default retry-delay schedule [5, 10, 30], an
always-failing webhook task is attempted exactly 4 times (the initial
attempt plus one retry per configured delay); the recursion then stops,
modelling that the task is dropped and never attempted again. -/
theorem webhook_attempts_amended : attemptsAlwaysFail [5, 10, 30] 0 = 4 := by
  rw [attemptsAlwaysFail.eq_def]
  norm_num
  rw [attemptsAlwaysFail.eq_def]
  norm_num
  rw [attemptsAlwaysFail.eq_def]
  norm_num
  rw [attemptsAlwaysFail.eq_def]
  norm_num

/-! Claim C5: the hash chain is well linked and rooted at the genesis
block, in every reachable ledger state. -/

theorem add_transaction_chain_eq (s : Chain) (tx : Transaction) :
    (add_transaction s tx).2.chain = s.chain := by
  by_cases h1 : tx.amount ≤ 0
  · simp [add_transaction, h1]
  · by_cases h2 : tx.sender ≠ "network" ∧
        dictGetD s.balances tx.sender 0 < tx.amount + calculate_fee tx.amount
    · simp [add_transaction, h1, h2]
    · simp [add_transaction, h1, h2]

theorem mine_block_chain_eq (s : Chain) (ts : ℚ) :
    (mine_block s ts).2.chain = s.chain ∨
    (mine_block s ts).2.chain = s.chain ++
      [mkBlock s.chain.length ts (s.pending_transactions.map mineFee)
        ((Option.map Block.hash s.chain.getLast?).getD Hash.zero)] := by
  by_cases h : s.pending_transactions = []
  · left
    simp [mine_block, h]
  · right
    simp [mine_block, h]

theorem breach_chain_invariant (s : Chain) (h : BReach s) :
    (∃ b0 rest, s.chain = b0 :: rest ∧ b0.previous_hash = Hash.zero ∧
      b0.transactions = []) ∧ List.Chain' ChainLink s.chain := by
  induction h with
  | init ts =>
    exact ⟨⟨genesis_block ts, [], rfl, rfl, rfl⟩, List.chain'_singleton _⟩
  | add tx hs ih =>
    rw [add_transaction_chain_eq]
    exact ih
  | mine ts hs ih =>
    rcases mine_block_chain_eq _ ts with hc | hc
    · rw [hc]
      exact ih
    · rw [hc]
      obtain ⟨⟨b0, rest, hb, hz, ht⟩, hlink⟩ := ih
      constructor
      · rw [hb, List.cons_append]
        exact ⟨b0, _, rfl, hz, ht⟩
      · apply List.Chain'.append hlink (List.chain'_singleton _)
        intro x hx y hy
        simp only [List.head?_cons, Option.mem_def, Option.some.injEq] at hy
        subst hy
        show (mkBlock _ _ _ _).previous_hash = x.hash
        rw [mkBlock]
        simp [Option.mem_def.mp hx]

/-- C5. In every ledger state reachable by `add_transaction` and
`mine_block` calls, consecutive chain entries satisfy
`chain[i+1].previous_hash = chain[i].hash`, and the chain starts with a
genesis block whose `previous_hash` is the literal "0" and whose
transaction list is empty. -/
theorem chain_linked_rooted (s : Chain) (h : BReach s) :
    (∀ (i : Nat) (b1 b2 : Block), s.chain[i]? = some b1 →
      s.chain[i + 1]? = some b2 → b2.previous_hash = b1.hash) ∧
    (∃ b0 rest, s.chain = b0 :: rest ∧ b0.previous_hash = Hash.zero ∧
      b0.transactions = []) := by
  obtain ⟨hgen, hlink⟩ := breach_chain_invariant s h
  refine ⟨?_, hgen⟩
  intro i b1 b2 h1 h2
  obtain ⟨hlt1, he1⟩ := List.getElem?_eq_some.mp h1
  obtain ⟨hlt2, he2⟩ := List.getElem?_eq_some.mp h2
  have hcl := List.chain'_iff_get.mp hlink i (by omega)
  rw [ChainLink] at hcl
  rw [List.get_eq_getElem, List.get_eq_getElem] at hcl
  rw [← he1, ← he2]
  exact hcl

/-- C5 witness: in the concrete two-block chain reached by admitting the
faucet transaction and mining, block 1 points at the hash of the genesis
block. -/
theorem chain_linked_rooted_witness :
    minedBlock1.previous_hash = (genesis_block 0).hash :=
  (chain_linked_rooted c1s2
      (BReach.mine 1 (BReach.add txFaucetA (BReach.init 0)))).1
    0 (genesis_block 0) minedBlock1
    (by norm_num +decide [c1s2, c1s1, txFaucetA, mkTransaction, add_transaction,
          mine_block, initChain, genesis_block, mkBlock, calculate_fee, mineFee,
          update_balances, updateOne, dictGetD, dictGet, calculate_hash])
    (by norm_num +decide [c1s2, c1s1, txFaucetA, mkTransaction, add_transaction,
          mine_block, initChain, genesis_block, mkBlock, calculate_fee, mineFee,
          update_balances, updateOne, dictGetD, dictGet, calculate_hash,
          minedBlock1])

/-! Claim C6: `generate_payment_proof` round-trips to the containing block
for a confirmed id and returns the error object for an unknown id. -/

theorem blockProof_eq_none_of_no_match (b : Block) (tid : Nat)
    (h : ∀ t ∈ b.transactions, ¬ t.tx_id = tid) : blockProof b tid = none := by
  unfold blockProof
  rw [List.find?_eq_none.mpr]
  · rfl
  · intro x hx
    simpa using h x hx

theorem blockProof_found_of_mem (b : Block) (tx : Transaction)
    (htx : tx ∈ b.transactions) :
    blockProof b tx.tx_id =
      some (ProofResult.found tx.tx_id b.hash b.index b.timestamp) := by
  unfold blockProof
  cases hf : b.transactions.find? (fun t => t.tx_id = tx.tx_id) with
  | none =>
    exfalso
    have := List.find?_eq_none.mp hf tx htx
    simp at this
  | some y =>
    have hy := List.find?_some hf
    simp only [decide_eq_true_eq] at hy
    simp [hy]

theorem occ_pos_of_mem (blocks : List Block) (b : Block) (tx : Transaction)
    (hb : b ∈ blocks) (htx : tx ∈ b.transactions) :
    1 ≤ (blocks.map (fun bl =>
      (bl.transactions.filter (fun t => t.tx_id = tx.tx_id)).length)).sum := by
  induction blocks with
  | nil => simp at hb
  | cons b0 rest ih =>
    rw [List.map_cons, List.sum_cons]
    rcases List.mem_cons.mp hb with rfl | hmem
    · have hmemf : tx ∈ b.transactions.filter (fun t => t.tx_id = tx.tx_id) :=
        List.mem_filter.mpr ⟨htx, by simp⟩
      have hlen : 0 < (b.transactions.filter
          (fun t => t.tx_id = tx.tx_id)).length :=
        List.length_pos.mpr (List.ne_nil_of_mem hmemf)
      omega
    · have := ih hmem
      omega

theorem findSome_blockProof_eq (blocks : List Block) (b : Block)
    (tx : Transaction) (hb : b ∈ blocks) (htx : tx ∈ b.transactions)
    (huniq : (blocks.map (fun bl =>
      (bl.transactions.filter (fun t => t.tx_id = tx.tx_id)).length)).sum = 1) :
    blocks.findSome? (fun bl => blockProof bl tx.tx_id) =
      some (ProofResult.found tx.tx_id b.hash b.index b.timestamp) := by
  induction blocks with
  | nil => simp at hb
  | cons b0 rest ih =>
    rcases List.mem_cons.mp hb with rfl | hmem
    · rw [List.findSome?_cons, blockProof_found_of_mem b tx htx]
    · have hge := occ_pos_of_mem rest b tx hmem htx
      rw [List.map_cons, List.sum_cons] at huniq
      have h0 : (b0.transactions.filter (fun t => t.tx_id = tx.tx_id)).length
          = 0 := by omega
      have hnil : b0.transactions.filter (fun t => t.tx_id = tx.tx_id) = [] :=
        List.length_eq_zero.mp h0
      have hnone : blockProof b0 tx.tx_id = none := by
        apply blockProof_eq_none_of_no_match
        intro t ht hteq
        have hmf : t ∈ b0.transactions.filter (fun t => t.tx_id = tx.tx_id) :=
          List.mem_filter.mpr ⟨ht, by simp [hteq]⟩
        rw [hnil] at hmf
        simp at hmf
      have hrest := ih hmem (by omega)
      rw [List.findSome?_cons, hnone]
      exact hrest

/-- C6. For a transaction confirmed in block `b` of the chain, with its id
occurring exactly once on the chain (uuid uniqueness),
`generate_payment_proof` returns the proof naming exactly `b.hash` and
`b.index`; and for an id occurring in no block it returns the error
object rather than raising. -/
theorem generate_payment_proof_round_trip (s : Chain) (b : Block)
    (tx : Transaction) (hb : b ∈ s.chain) (htx : tx ∈ b.transactions)
    (huniq : txIdOccurrences s tx.tx_id = 1) :
    generate_payment_proof s tx.tx_id =
      ProofResult.found tx.tx_id b.hash b.index b.timestamp ∧
    (∀ tid, txIdOccurrences s tid = 0 →
      generate_payment_proof s tid = ProofResult.notFound) := by
  constructor
  · unfold txIdOccurrences at huniq
    unfold generate_payment_proof
    rw [findSome_blockProof_eq s.chain b tx hb htx huniq]
    rfl
  · intro tid htid
    unfold txIdOccurrences at htid
    unfold generate_payment_proof
    have hnone : s.chain.findSome? (fun bl => blockProof bl tid) = none := by
      rw [List.findSome?_eq_none_iff]
      intro bl hbl
      apply blockProof_eq_none_of_no_match
      intro t ht hteq
      have hpos := occ_pos_of_mem s.chain bl t hbl ht
      rw [hteq] at hpos
      rw [htid] at hpos
      omega
    rw [hnone]
    rfl

/-- C6 witness: on the concrete two-block chain, the proof for the mined
faucet transaction (id 0) names block 1 and its hash, and the proof lookup
for the absent id 99 yields the error object. -/
theorem generate_payment_proof_round_trip_witness :
    generate_payment_proof c1s2 0 =
      ProofResult.found 0 minedBlock1.hash 1 1 ∧
    generate_payment_proof c1s2 99 = ProofResult.notFound := by
  have h := generate_payment_proof_round_trip c1s2 minedBlock1
    (mineFee txFaucetA)
    (by norm_num +decide [c1s2, c1s1, txFaucetA, mkTransaction, add_transaction,
          mine_block, initChain, genesis_block, mkBlock, calculate_fee,
          update_balances, updateOne, dictGetD, dictGet, calculate_hash,
          minedBlock1])
    (by norm_num +decide [minedBlock1, mkBlock])
    (by norm_num +decide [txIdOccurrences, c1s2, c1s1, txFaucetA, mkTransaction,
          add_transaction, mine_block, initChain, genesis_block, mkBlock,
          calculate_fee, mineFee, update_balances, updateOne, dictGetD, dictGet,
          calculate_hash])
  refine ⟨h.1, h.2 99 ?_⟩
  norm_num +decide [txIdOccurrences, c1s2, c1s1, txFaucetA, mkTransaction,
    add_transaction, mine_block, initChain, genesis_block, mkBlock,
    calculate_fee, mineFee, update_balances, updateOne, dictGetD, dictGet,
    calculate_hash]

/-! Claim C1: non-negative balances. The admission check of
`add_transaction` compares against the confirmed balance only, so two
pending transactions from one sender can jointly overdraw it: the claimed
invariant fails. It does hold under the discipline of at most one pending
transaction per sender (`ReachSinglePending`). -/

theorem pendingDebit_nil (a : String) : pendingDebit [] a = 0 := rfl

theorem pendingDebit_cons (tx : Transaction) (txs : List Transaction)
    (a : String) :
    pendingDebit (tx :: txs) a =
      (if tx.sender = a ∧ tx.sender ≠ "network"
        then tx.amount + calculate_fee tx.amount else 0) + pendingDebit txs a := by
  simp [pendingDebit]

theorem pendingDebit_append (txs1 txs2 : List Transaction) (a : String) :
    pendingDebit (txs1 ++ txs2) a = pendingDebit txs1 a + pendingDebit txs2 a := by
  simp [pendingDebit]

theorem calculate_fee_pos (q : ℚ) (h : 0 < q) : 0 < calculate_fee q := by
  unfold calculate_fee
  positivity

theorem pendingDebit_nonneg (txs : List Transaction) (a : String)
    (hpos : ∀ tx ∈ txs, 0 < tx.amount) : 0 ≤ pendingDebit txs a := by
  induction txs with
  | nil => simp [pendingDebit_nil]
  | cons tx rest ih =>
    rw [pendingDebit_cons]
    have h1 : 0 < tx.amount := hpos tx (List.mem_cons_self tx rest)
    have h2 := ih (fun t ht => hpos t (List.mem_cons_of_mem tx ht))
    have h3 : (0 : ℚ) ≤ (if tx.sender = a ∧ tx.sender ≠ "network"
        then tx.amount + calculate_fee tx.amount else 0) := by
      split
      · have := calculate_fee_pos tx.amount h1
        linarith
      · exact le_refl 0
    linarith

theorem pendingDebit_eq_zero_of_no_sender (txs : List Transaction) (u : String)
    (h : ∀ p ∈ txs, p.sender ≠ u) : pendingDebit txs u = 0 := by
  induction txs with
  | nil => rfl
  | cons tx rest ih =>
    rw [pendingDebit_cons]
    have h1 : tx.sender ≠ u := h tx (List.mem_cons_self tx rest)
    rw [if_neg (by intro hc; exact h1 hc.1)]
    rw [ih (fun t ht => h t (List.mem_cons_of_mem tx ht))]
    ring

/-- The balance update of mining one transaction keeps every balance at
least the remaining pending debit, provided it covered the full debit
before. -/
theorem updateOne_keeps_debit_bound (bal : List (String × ℚ))
    (tx : Transaction) (rest : List Transaction) (hpos : 0 < tx.amount)
    (hdeb : ∀ a, pendingDebit (tx :: rest) a ≤ dictGetD bal a 0) :
    ∀ a, pendingDebit rest a ≤ dictGetD (updateOne bal (mineFee tx)) a 0 := by
  intro a
  have hfee := calculate_fee_pos tx.amount hpos
  have hdrop : pendingDebit rest a ≤ pendingDebit (tx :: rest) a := by
    rw [pendingDebit_cons]
    have : (0 : ℚ) ≤ (if tx.sender = a ∧ tx.sender ≠ "network"
        then tx.amount + calculate_fee tx.amount else 0) := by
      split
      · linarith
      · exact le_refl 0
    linarith
  by_cases hnet : tx.sender = "network"
  · have hm : mineFee tx = { tx with amount_with_fee := tx.amount } := by
      simp [mineFee, hnet]
    rw [hm, updateOne]
    simp only [hnet]
    rw [if_neg (by simp)]
    by_cases hrec : a = tx.recipient
    · subst hrec
      rw [dictGetD_dictSet_self]
      have := hdeb tx.recipient
      linarith
    · rw [dictGetD_dictSet_ne _ _ _ _ _ hrec]
      have := hdeb a
      linarith
  · have hm : mineFee tx =
        { tx with amount_with_fee := tx.amount + calculate_fee tx.amount } := by
      simp [mineFee, hnet]
    have hdebs := hdeb tx.sender
    rw [pendingDebit_cons, if_pos ⟨rfl, hnet⟩] at hdebs
    rw [hm, updateOne]
    simp only [ne_eq, hnet, not_false_eq_true, if_pos]
    by_cases hrec : a = tx.recipient
    · rw [hrec, dictGetD_dictSet_self]
      rw [hrec] at hdrop
      by_cases hsend : tx.recipient = tx.sender
      · rw [hsend, dictGetD_dictSet_self]
        rw [hsend] at hdrop
        linarith
      · rw [dictGetD_dictSet_ne _ _ _ _ _ hsend]
        have := hdeb tx.recipient
        linarith
    · rw [dictGetD_dictSet_ne _ _ _ _ _ hrec]
      by_cases hsend : a = tx.sender
      · rw [hsend, dictGetD_dictSet_self]
        linarith
      · rw [dictGetD_dictSet_ne _ _ _ _ _ hsend]
        exact le_trans hdrop (hdeb a)

/-- Model of `add_transaction` never touches the balances. -/
theorem add_transaction_balances_eq (s : Chain) (tx : Transaction) :
    (add_transaction s tx).2.balances = s.balances := by
  by_cases h1 : tx.amount ≤ 0
  · simp [add_transaction, h1]
  · by_cases h2 : tx.sender ≠ "network" ∧
        dictGetD s.balances tx.sender 0 < tx.amount + calculate_fee tx.amount
    · simp [add_transaction, h1, h2]
    · simp [add_transaction, h1, h2]

/-- Folding the balance update over mined transactions keeps every balance
non-negative when the starting balances cover the full pending debit. -/
theorem update_balances_keeps_nonneg (txs : List Transaction)
    (bal : List (String × ℚ)) (hpos : ∀ tx ∈ txs, 0 < tx.amount)
    (hdeb : ∀ a, pendingDebit txs a ≤ dictGetD bal a 0) :
    ∀ a, 0 ≤ dictGetD (update_balances bal (txs.map mineFee)) a 0 := by
  induction txs generalizing bal with
  | nil =>
    intro a
    have h := hdeb a
    rw [pendingDebit_nil] at h
    simpa [update_balances] using h
  | cons tx rest ih =>
    have hstep : update_balances bal ((tx :: rest).map mineFee)
        = update_balances (updateOne bal (mineFee tx)) (rest.map mineFee) := by
      simp [update_balances]
    rw [hstep]
    exact ih (updateOne bal (mineFee tx))
      (fun t ht => hpos t (List.mem_cons_of_mem tx ht))
      (updateOne_keeps_debit_bound bal tx rest
        (hpos tx (List.mem_cons_self tx rest)) hdeb)

/-- Inductive invariant of single-pending reachability: pending amounts are
positive and every balance covers the pending debit against it. -/
theorem reach_single_pending_invariant (s : Chain)
    (h : ReachSinglePending s) :
    (∀ tx ∈ s.pending_transactions, 0 < tx.amount) ∧
    (∀ a, pendingDebit s.pending_transactions a ≤ dictGetD s.balances a 0) := by
  induction h with
  | init ts =>
    constructor
    · intro tx htx
      simp [initChain] at htx
    · intro a
      simp [initChain, pendingDebit_nil, dictGetD, dictGet]
  | @add s1 tx hs hres ih =>
    obtain ⟨hpos, hdeb⟩ := ih
    by_cases h1 : tx.amount ≤ 0
    · simp only [add_transaction, if_pos h1]
      exact ⟨hpos, hdeb⟩
    · by_cases h2 : tx.sender ≠ "network" ∧
          dictGetD s1.balances tx.sender 0 < tx.amount + calculate_fee tx.amount
      · simp only [add_transaction, if_neg h1, if_pos h2]
        exact ⟨hpos, hdeb⟩
      · have hpend : (add_transaction s1 tx).2.pending_transactions
            = s1.pending_transactions ++ [tx] := by
          simp [add_transaction, h1, h2]
        rw [hpend, add_transaction_balances_eq]
        constructor
        · intro t ht
          rcases List.mem_append.mp ht with ht | ht
          · exact hpos t ht
          · have : t = tx := by simpa using ht
            rw [this]
            exact lt_of_not_le h1
        · intro a
          rw [pendingDebit_append]
          rcases hres with hnet | hnone
          · have hz : pendingDebit [tx] a = 0 := by
              rw [pendingDebit_cons, pendingDebit_nil]
              rw [if_neg (by intro hc; exact hc.2 hnet)]
              ring
            rw [hz]
            have := hdeb a
            linarith
          · by_cases hca : tx.sender = a ∧ tx.sender ≠ "network"
            · obtain ⟨hca1, hca2⟩ := hca
              have hz : pendingDebit s1.pending_transactions a = 0 := by
                apply pendingDebit_eq_zero_of_no_sender
                intro p hp
                rw [← hca1]
                exact hnone p hp
              have hone : pendingDebit [tx] a
                  = tx.amount + calculate_fee tx.amount := by
                rw [pendingDebit_cons, pendingDebit_nil,
                  if_pos ⟨hca1, hca2⟩]
                ring
              rw [hz, hone]
              push_neg at h2
              have hb := h2 hca2
              rw [hca1] at hb
              linarith
            · have hz : pendingDebit [tx] a = 0 := by
                rw [pendingDebit_cons, pendingDebit_nil, if_neg hca]
                ring
              rw [hz]
              have := hdeb a
              linarith
  | @mine s1 ts hs ih =>
    obtain ⟨hpos, hdeb⟩ := ih
    by_cases hp : s1.pending_transactions = []
    · simp only [mine_block, if_pos hp]
      exact ⟨hpos, hdeb⟩
    · have h2 : (mine_block s1 ts).2.pending_transactions = [] := by
        simp [mine_block, hp]
      have h3 : (mine_block s1 ts).2.balances
          = update_balances s1.balances (s1.pending_transactions.map mineFee) := by
        simp [mine_block, hp, update_balances, mkBlock]
      rw [h2, h3]
      constructor
      · intro t ht
        simp at ht
      · intro a
        rw [pendingDebit_nil]
        exact update_balances_keeps_nonneg _ _ hpos hdeb a

/-- C1 counterexample: a reachable state with a negative balance. From a
fresh ledger, faucet 10 coins to walletA and mine; then admit two 9-coin
spends from walletA — each passes the admission check against the
confirmed balance 10 — and mine: walletA ends at
10 - 2 * (9 + 0.00009) = -8.00018 < 0. -/
theorem balance_nonneg_cex : BReach c1s5 ∧ get_balance c1s5 "walletA" < 0 := by
  constructor
  · exact BReach.mine 2 (BReach.add txSpend2 (BReach.add txSpend1
      (BReach.mine 1 (BReach.add txFaucetA (BReach.init 0)))))
  · norm_num +decide [c1s5, c1s4, c1s3, c1s2, c1s1, txFaucetA, txSpend1,
      txSpend2, get_balance, add_transaction, mine_block, initChain,
      genesis_block, mkBlock, mkTransaction, calculate_fee, mineFee,
      update_balances, updateOne, dictGet, dictGetD, dictSet, calculate_hash]

/-- C1 amended. Under call sequences in which a non-"network" transaction
is only admitted while its sender has nothing else pending (so the
admission check sees the whole exposure), `get_balance` never returns a
negative value for any address. -/
theorem balance_nonneg_single_pending (s : Chain)
    (h : ReachSinglePending s) (a : String) : 0 ≤ get_balance s a := by
  obtain ⟨hpos, hdeb⟩ := reach_single_pending_invariant s h
  have h1 := pendingDebit_nonneg s.pending_transactions a hpos
  have h2 := hdeb a
  rw [get_balance]
  linarith

/-- C1 amended witness: faucet 10 to walletA, spend 9 once, mine each time:
walletA stays non-negative. -/
theorem balance_nonneg_single_pending_witness : 0 ≤ get_balance c1w "walletA" :=
  balance_nonneg_single_pending c1w
    (ReachSinglePending.mine 2 (ReachSinglePending.add txSpend1
      (ReachSinglePending.mine 1 (ReachSinglePending.add txFaucetA
        (ReachSinglePending.init 0) (Or.inl rfl)))
      (Or.inr (by
        norm_num +decide [c1s2, c1s1, txFaucetA, txSpend1, mkTransaction,
          add_transaction, mine_block, initChain, genesis_block, mkBlock,
          calculate_fee, mineFee, update_balances, updateOne, dictGet,
          dictGetD, dictSet, calculate_hash]))))
    "walletA"

end ECom

